import Mathlib

/-
  Shallow embedding of the `filerotate` package (filerotate.go).

  Bytes are modelled as `List Nat`.  The file system is modelled by the
  paths the writer ever touches: `FS.base` is the content of the base
  file `Options.FilePath` (`none` when the file does not exist) and
  `FS.gens i` is the content of the generation file `"<FilePath>.<i>"`
  (path built with `fmt.Sprintf("%s.%d", ...)` in the source; distinct
  indices give distinct paths).  The open handle always refers to the
  base path, so `f.Write`/`f.Stat` act on `FS.base`.

  External outcomes of the OS calls (stat/write/close/remove/rename/open)
  are supplied by `Env`/`RotEnv` oracles, one flag per call site; `allOk`
  is the all-operations-succeed environment.  A failed operation leaves
  the file system unchanged and returns the corresponding error, per the
  collaborator contract of the spec.
-/

namespace Filerotate

abbrev Bytes := List Nat

/-- `w.f` in the Go source is a `*os.File`: `hnil` models a nil pointer,
`hopen` a pointer to an open file, `hclosed` a pointer to a file that has
been closed (the source never nils the handle inside `rotate`). -/
inductive HandleState where
  | hnil
  | hopen
  | hclosed
deriving DecidableEq

/-- `Options` from filerotate.go. `Rotate` is non-negative (Go `int`,
spec: "non-negative integer"), `Size` is Go `int64`. -/
structure Options where
  FilePath : String
  Rotate : Nat
  Size : Int
  Mode : Nat
  LineSeparator : Bytes
deriving DecidableEq

def LineSeparatorUnix : Bytes := [10]
def LineSeparatorWindows : Bytes := [13, 10]
def LineSeparatorMac : Bytes := [13]
def LineSeparatorNothing : Bytes := []

def DefaultOptions : Options :=
  { FilePath := ""
    Rotate := 5
    Size := 10 * 1024 * 1024
    Mode := 0o644
    LineSeparator := LineSeparatorUnix }

inductive FErr where
  | closedErr
  | statErr
  | writeErr
  | closeErr
  | removeErr
  | renameErr
  | openErr
  | emptyPathErr
deriving DecidableEq

structure FS where
  base : Option Bytes
  gens : Nat → Option Bytes

structure Writer where
  options : Options
  f : HandleState
  buf : Bytes

/-- Outcomes of the OS calls inside `rotate`, one flag per call site
(`shift_ok` covers every rename of the generation-shift loop). -/
structure RotEnv where
  close_ok : Bool
  remove_ok : Bool
  shift_ok : Bool
  renb_ok : Bool
  open_ok : Bool
deriving DecidableEq

/-- Outcomes of the OS calls inside `Write`: `stat_ok` for `f.Stat`,
`w_ok` for the direct `f.Write(p)` call sites, `w0_ok` for the
pre-rotation buffer write, `w1_ok` for the write to the new handle. -/
structure Env where
  stat_ok : Bool
  w_ok : Bool
  w0_ok : Bool
  w1_ok : Bool
  rot : RotEnv
deriving DecidableEq

def RotEnv.allOk : RotEnv := ⟨true, true, true, true, true⟩

def Env.allOk : Env := ⟨true, true, true, true, RotEnv.allOk⟩

/-- `f.Stat().Size()`: size of the open handle, i.e. of the base file. -/
def statSize (fs : FS) : Int := ((fs.base.getD []).length : Int)

/-- Appending `p` through the open handle (which refers to the base path). -/
def writeToHandle (p : Bytes) (fs : FS) : FS :=
  { fs with base := some (fs.base.getD [] ++ p) }

/-- `f.Write(p)`: returns the byte count and error; a failing write
writes nothing (atomic collaborator contract). -/
def fWrite (ok : Bool) (p : Bytes) (fs : FS) : Nat × Option FErr × FS :=
  if ok then (p.length, none, writeToHandle p fs) else (0, some FErr.writeErr, fs)

def updGens (g : Nat → Option Bytes) (i : Nat) (v : Option Bytes) : Nat → Option Bytes :=
  fun j => if j = i then v else g j

/-- Step 2 of `rotate`: remove `<base>.R` when it exists (missing file is
not an error). -/
def removeOldest (R : Nat) (fs : FS) : FS :=
  if (fs.gens R).isSome then { fs with gens := updGens fs.gens R none } else fs

/-- `os.Rename("<base>.src", "<base>.dst")`; rename replaces the target. -/
def moveGen (src dst : Nat) (fs : FS) : FS :=
  { fs with gens := updGens (updGens fs.gens dst (fs.gens src)) src none }

/-- The generation-shift loop `for i := Rotate-1; i > 0; i--` of `rotate`
(success semantics): called with `n = R - 1`, it processes indices
`n, n-1, ..., 1`, renaming `<base>.i` to `<base>.i+1` when it exists. -/
def shiftLoop (fs : FS) : Nat → FS
  | 0 => fs
  | m + 1 => shiftLoop (if (fs.gens (m + 1)).isSome then moveGen (m + 1) (m + 2) fs else fs) m

/-- Step 4 of `rotate`: `os.Rename(FilePath, FilePath + ".1")` (success
semantics; the source errors when the base file is absent, that case is
handled in `Writer.rotate`). -/
def renameBaseToGen1 (fs : FS) : FS :=
  match fs.base with
  | some c => { base := none, gens := updGens fs.gens 1 (some c) }
  | none => fs

/-- Step 5 of `rotate`: `os.OpenFile(FilePath, O_APPEND|O_CREATE|O_WRONLY, mode)`:
creates the file empty when absent, keeps content when present. -/
def reopenBase (fs : FS) : FS := { fs with base := some (fs.base.getD []) }

/-- The full file-system effect of a successful `rotate` with rotate
count `R`, as the ordered composition of its four file-system steps. -/
def rotateFS (R : Nat) (fs : FS) : FS :=
  reopenBase (renameBaseToGen1 (shiftLoop (removeOldest R fs) (R - 1)))

/-- The generation-shift loop with the rename outcome oracle threaded
through: a required rename fails when `ok = false`. -/
def shiftLoopE (ok : Bool) (fs : FS) : Nat → Option FErr × FS
  | 0 => (none, fs)
  | m + 1 =>
    if (fs.gens (m + 1)).isSome then
      if ok then shiftLoopE ok (moveGen (m + 1) (m + 2) fs) m
      else (some FErr.renameErr, fs)
    else shiftLoopE ok fs m

/-- `Writer.rotate` from filerotate.go, with the OS-call outcomes given
by `env`.  Mirrors the source line by line: close the handle if non-nil
(the pointer is kept, now pointing at a closed file), remove `<base>.R`
if it exists, shift generations `R-1 .. 1` up by one, rename the base
file to `<base>.1` (fails when absent), reopen the base path. -/
def Writer.rotate (w : Writer) (fs : FS) (env : RotEnv) : Option FErr × Writer × FS :=
  match (if w.f ≠ HandleState.hnil then
           (if env.close_ok then ((none : Option FErr), { w with f := HandleState.hclosed })
            else (some FErr.closeErr, w))
         else (none, w)) with
  | (some e, w1) => (some e, w1, fs)
  | (none, w1) =>
    match (if (fs.gens w.options.Rotate).isSome then
             (if env.remove_ok then ((none : Option FErr), { fs with gens := updGens fs.gens w.options.Rotate none })
              else (some FErr.removeErr, fs))
           else (none, fs)) with
    | (some e, fs1) => (some e, w1, fs1)
    | (none, fs1) =>
      match shiftLoopE env.shift_ok fs1 (w.options.Rotate - 1) with
      | (some e, fs2) => (some e, w1, fs2)
      | (none, fs2) =>
        match fs2.base with
        | none => (some FErr.renameErr, w1, fs2)
        | some c =>
          if env.renb_ok then
            let fs3 : FS := { base := none, gens := updGens fs2.gens 1 (some c) }
            if env.open_ok then
              (none, { w1 with f := HandleState.hopen }, { fs3 with base := some (fs3.base.getD []) })
            else (some FErr.openErr, w1, fs3)
          else (some FErr.renameErr, w1, fs2)

/-- `bytes.HasPrefix`-style check used to define `bytes.Index`:
`startsWith buf sep` holds when `sep` is an initial segment of `buf`. -/
def startsWith : Bytes → Bytes → Bool
  | _, [] => true
  | [], _ :: _ => false
  | a :: as, b :: bs => a = b && startsWith as bs

/-- `bytes.Index(buf, sep)`: index of the first occurrence of `sep` in
`buf` (`none` models the -1 of the source; the source compares with -1
immediately, so the `Option` is faithful). -/
def bytesIndex : Bytes → Bytes → Option Nat
  | buf, [] => if startsWith buf [] then some 0 else none
  | [], _ :: _ => none
  | a :: rest, b :: bs =>
    if startsWith (a :: rest) (b :: bs) then some 0
    else (bytesIndex rest (b :: bs)).map (fun i => i + 1)

/-- The result quadruple of `Writer.Write`: returned count, returned
error, writer state after the call, file system after the call. -/
structure WriteResult where
  n : Nat
  err : Option FErr
  w : Writer
  fs : FS

/-- `Writer.Write` from filerotate.go, with OS-call outcomes given by
`env`.  Mirrors the source: closed check, `Size == 0` direct write, stat,
below-threshold direct write, empty-separator immediate rotation, and
the separator-buffering branch (append to `buf`, search, flush through
the separator, rotate, flush the rest, reset `buf`). -/
def Writer.write (w : Writer) (fs : FS) (env : Env) (p : Bytes) : WriteResult :=
  if w.f = HandleState.hnil then
    ⟨0, some FErr.closedErr, w, fs⟩
  else if w.options.Size = 0 then
    match fWrite env.w_ok p fs with
    | (n, e, fs1) => ⟨n, e, w, fs1⟩
  else if env.stat_ok = false then
    ⟨0, some FErr.statErr, w, fs⟩
  else if statSize fs < w.options.Size then
    match fWrite env.w_ok p fs with
    | (n, e, fs1) => ⟨n, e, w, fs1⟩
  else if w.options.LineSeparator.length = 0 then
    match w.rotate fs env.rot with
    | (some e, w1, fs1) => ⟨0, some e, w1, fs1⟩
    | (none, w1, fs1) =>
      match fWrite env.w1_ok p fs1 with
      | (n, e, fs2) => ⟨n, e, w1, fs2⟩
  else
    let w1 : Writer := { w with buf := w.buf ++ p }
    match bytesIndex w1.buf w.options.LineSeparator with
    | none => ⟨p.length, none, w1, fs⟩
    | some loc =>
      let k := loc + w.options.LineSeparator.length
      match fWrite env.w0_ok (w1.buf.take k) fs with
      | (_, some e, fs1) => ⟨0, some e, w1, fs1⟩
      | (n0, none, fs1) =>
        match w1.rotate fs1 env.rot with
        | (some e, w2, fs2) => ⟨0, some e, w2, fs2⟩
        | (none, w2, fs2) =>
          match fWrite env.w1_ok (w1.buf.drop k) fs2 with
          | (_, some e, fs3) => ⟨0, some e, w2, fs3⟩
          | (n1, none, fs3) => ⟨n0 + n1, none, { w2 with buf := [] }, fs3⟩

/-- `Writer.Close` from filerotate.go: close the handle if non-nil, nil
it out regardless of the close error, return that error; a second call
finds a nil handle and returns nil. -/
def Writer.close (w : Writer) (fs : FS) (ok : Bool) : Option FErr × Writer × FS :=
  if w.f ≠ HandleState.hnil then
    ((if ok then none else some FErr.closeErr), { w with f := HandleState.hnil }, fs)
  else (none, w, fs)

/-- `NewWriter` from filerotate.go: empty-path check, zero-value
defaulting of Mode/Rotate/Size (the separator is not defaulted), then
open-with-create-append of the base path. -/
def NewWriter (options : Options) (fs : FS) (open_ok : Bool) :
    Except FErr (Writer × FS) :=
  if options.FilePath = "" then Except.error FErr.emptyPathErr
  else
    let options1 := { options with Mode := if options.Mode = 0 then DefaultOptions.Mode else options.Mode }
    let options2 := { options1 with Rotate := if options1.Rotate = 0 then DefaultOptions.Rotate else options1.Rotate }
    let options3 := { options2 with Size := if options2.Size = 0 then DefaultOptions.Size else options2.Size }
    if open_ok then
      Except.ok ({ options := options3, f := HandleState.hopen, buf := [] },
                 { fs with base := some (fs.base.getD []) })
    else Except.error FErr.openErr

/-! ### Facts about the separator search -/

theorem startsWith_length : ∀ {buf sep : Bytes}, startsWith buf sep = true →
    sep.length ≤ buf.length := by
  intro buf
  induction buf with
  | nil =>
    intro sep h
    cases sep with
    | nil => simp
    | cons b bs => simp [startsWith] at h
  | cons a as ih =>
    intro sep h
    cases sep with
    | nil => simp
    | cons b bs =>
      simp only [startsWith, Bool.and_eq_true] at h
      simpa [List.length_cons] using ih h.2

theorem startsWith_append (q : Bytes) : ∀ {buf sep : Bytes}, sep.length ≤ buf.length →
    startsWith (buf ++ q) sep = startsWith buf sep := by
  intro buf
  induction buf with
  | nil =>
    intro sep h
    have : sep = [] := List.length_eq_zero.mp (Nat.le_zero.mp h)
    subst this
    simp [startsWith]
  | cons a as ih =>
    intro sep h
    cases sep with
    | nil => simp [startsWith]
    | cons b bs =>
      have hlen : bs.length ≤ as.length := by
        simpa [List.length_cons] using h
      simp [List.cons_append, startsWith, List.append_eq, ih hlen]

theorem bytesIndex_le : ∀ {buf sep : Bytes} {loc : Nat},
    bytesIndex buf sep = some loc → loc + sep.length ≤ buf.length := by
  intro buf
  induction buf with
  | nil =>
    intro sep loc h
    cases sep with
    | nil =>
      simp [bytesIndex, startsWith] at h
      simp [← h]
    | cons b bs => simp [bytesIndex] at h
  | cons a as ih =>
    intro sep loc h
    cases sep with
    | nil =>
      simp [bytesIndex, startsWith] at h
      simp [← h]
    | cons b bs =>
      by_cases hs : startsWith (a :: as) (b :: bs) = true
      · simp [bytesIndex, hs] at h
        have := startsWith_length hs
        omega
      · simp only [bytesIndex, hs, if_false, Bool.false_eq_true, Option.map_eq_some'] at h
        obtain ⟨i, hi, rfl⟩ := h
        have := ih hi
        simp only [List.length_cons] at this ⊢
        omega

theorem bytesIndex_append (q : Bytes) : ∀ {buf sep : Bytes} {loc : Nat},
    bytesIndex buf sep = some loc → bytesIndex (buf ++ q) sep = some loc := by
  intro buf
  induction buf with
  | nil =>
    intro sep loc h
    cases sep with
    | nil =>
      simp [bytesIndex, startsWith] at h
      simp [bytesIndex, startsWith, ← h]
    | cons b bs => simp [bytesIndex] at h
  | cons a as ih =>
    intro sep loc h
    cases sep with
    | nil =>
      simp [bytesIndex, startsWith] at h
      simp [bytesIndex, startsWith, ← h]
    | cons b bs =>
      by_cases hs : startsWith (a :: as) (b :: bs) = true
      · simp [bytesIndex, hs] at h
        have hlen := startsWith_length hs
        have hsq : startsWith (a :: (as ++ q)) (b :: bs) = true := by
          have := @startsWith_append q (a :: as) (b :: bs) hlen
          simp only [List.cons_append] at this
          rw [this, hs]
        simp [bytesIndex, hsq, ← h]
      · simp only [bytesIndex, hs, if_false, Bool.false_eq_true, Option.map_eq_some'] at h
        obtain ⟨i, hi, rfl⟩ := h
        have hlen : (b :: bs).length ≤ (a :: as).length := by
          have := bytesIndex_le hi
          simp only [List.length_cons] at this ⊢
          omega
        have hs2 : startsWith (a :: (as ++ q)) (b :: bs) = false := by
          have := @startsWith_append q (a :: as) (b :: bs) hlen
          simp only [List.cons_append] at this
          rw [this]
          exact Bool.eq_false_iff.mpr hs
        simp [bytesIndex, hs2, ih hi]

/-! ### Facts about rotation -/

theorem shiftLoopE_true (fs : FS) : ∀ n, shiftLoopE true fs n = (none, shiftLoop fs n) := by
  intro n
  induction n generalizing fs with
  | zero => rfl
  | succ m ih =>
    by_cases h : (fs.gens (m + 1)).isSome <;>
      simp [shiftLoopE, shiftLoop, h, ih]

theorem moveGen_base (src dst : Nat) (fs : FS) : (moveGen src dst fs).base = fs.base := rfl

theorem moveGen_gens (src dst : Nat) (fs : FS) (j : Nat) :
    (moveGen src dst fs).gens j =
      if j = src then none else if j = dst then fs.gens src else fs.gens j := rfl

theorem shiftLoop_base (fs : FS) : ∀ n, (shiftLoop fs n).base = fs.base := by
  intro n
  induction n generalizing fs with
  | zero => rfl
  | succ m ih =>
    by_cases h : (fs.gens (m + 1)).isSome <;> simp [shiftLoop, h, ih, moveGen_base]

theorem shiftLoopE_base (ok : Bool) (fs : FS) : ∀ n, ((shiftLoopE ok fs n).2).base = fs.base := by
  intro n
  induction n generalizing fs with
  | zero => rfl
  | succ m ih =>
    by_cases h : (fs.gens (m + 1)).isSome
    · cases ok <;> simp [shiftLoopE, h, ih, moveGen_base]
    · simp [shiftLoopE, h, ih]

theorem removeOldest_base (R : Nat) (fs : FS) : (removeOldest R fs).base = fs.base := by
  unfold removeOldest
  split <;> rfl

/-- A successful `rotate` (every OS call succeeds, the base file exists)
returns no error, leaves the writer with a freshly opened handle, and
performs exactly the staged file-system transformation `rotateFS`. -/
theorem rotate_allOk (w : Writer) (fs : FS) (c : Bytes) (hb : fs.base = some c) :
    Writer.rotate w fs RotEnv.allOk =
      (none, { w with f := HandleState.hopen }, rotateFS w.options.Rotate fs) := by
  have hbase2 : (shiftLoop (removeOldest w.options.Rotate fs) (w.options.Rotate - 1)).base = some c := by
    rw [shiftLoop_base, removeOldest_base, hb]
  unfold Writer.rotate rotateFS
  by_cases hf : w.f = HandleState.hnil <;>
    by_cases hg : (fs.gens w.options.Rotate).isSome <;>
      simp [RotEnv.allOk, hf, hg, shiftLoopE_true, removeOldest, hbase2, renameBaseToGen1,
        reopenBase] <;>
      simp [removeOldest, hg] at hbase2 <;>
      simp [hbase2, renameBaseToGen1, reopenBase]

/-! ### Facts about the write paths -/

theorem write_closed (w : Writer) (fs : FS) (env : Env) (p : Bytes)
    (hf : w.f = HandleState.hnil) :
    Writer.write w fs env p = ⟨0, some FErr.closedErr, w, fs⟩ := by
  unfold Writer.write
  simp [hf]

theorem write_size0 (w : Writer) (fs : FS) (env : Env) (p : Bytes)
    (hf : w.f ≠ HandleState.hnil) (hs : w.options.Size = 0) :
    Writer.write w fs env p =
      ⟨(fWrite env.w_ok p fs).1, (fWrite env.w_ok p fs).2.1, w, (fWrite env.w_ok p fs).2.2⟩ := by
  unfold Writer.write
  rcases hfw : fWrite env.w_ok p fs with ⟨n, e, fs1⟩
  simp [hf, hs, hfw]

theorem write_below (w : Writer) (fs : FS) (p : Bytes)
    (hf : w.f = HandleState.hopen) (hs : w.options.Size ≠ 0)
    (hlt : statSize fs < w.options.Size) :
    Writer.write w fs Env.allOk p = ⟨p.length, none, w, writeToHandle p fs⟩ := by
  unfold Writer.write
  simp [hf, hs, hlt, Env.allOk, fWrite]

theorem write_nosep_cross (w : Writer) (fs : FS) (p : Bytes) (c : Bytes)
    (hf : w.f = HandleState.hopen) (hs : w.options.Size ≠ 0)
    (hge : w.options.Size ≤ statSize fs) (hsep : w.options.LineSeparator = [])
    (hb : fs.base = some c) :
    Writer.write w fs Env.allOk p =
      ⟨p.length, none, { w with f := HandleState.hopen },
        writeToHandle p (rotateFS w.options.Rotate fs)⟩ := by
  unfold Writer.write
  have hnlt : ¬ statSize fs < w.options.Size := not_lt.mpr hge
  simp [hf, hs, hnlt, hsep, Env.allOk, fWrite, rotate_allOk w fs c hb]

theorem write_sep_notfound (w : Writer) (fs : FS) (env : Env) (p : Bytes)
    (hf : w.f = HandleState.hopen) (hs : w.options.Size ≠ 0) (hstat : env.stat_ok = true)
    (hge : w.options.Size ≤ statSize fs) (hsep : w.options.LineSeparator.length ≠ 0)
    (hnone : bytesIndex (w.buf ++ p) w.options.LineSeparator = none) :
    Writer.write w fs env p = ⟨p.length, none, { w with buf := w.buf ++ p }, fs⟩ := by
  unfold Writer.write
  have hnlt : ¬ statSize fs < w.options.Size := not_lt.mpr hge
  simp [hf, hs, hstat, hnlt, hsep, hnone]

theorem write_sep_found (w : Writer) (fs : FS) (p : Bytes) (c : Bytes) (loc : Nat)
    (hf : w.f ≠ HandleState.hnil) (hs : w.options.Size ≠ 0)
    (hge : w.options.Size ≤ statSize fs) (hsep : w.options.LineSeparator.length ≠ 0)
    (hloc : bytesIndex (w.buf ++ p) w.options.LineSeparator = some loc)
    (hb : fs.base = some c) :
    Writer.write w fs Env.allOk p =
      ⟨((w.buf ++ p).take (loc + w.options.LineSeparator.length)).length +
          ((w.buf ++ p).drop (loc + w.options.LineSeparator.length)).length,
        none,
        { w with f := HandleState.hopen, buf := [] },
        writeToHandle ((w.buf ++ p).drop (loc + w.options.LineSeparator.length))
          (rotateFS w.options.Rotate
            (writeToHandle ((w.buf ++ p).take (loc + w.options.LineSeparator.length)) fs))⟩ := by
  unfold Writer.write
  have hnlt : ¬ statSize fs < w.options.Size := not_lt.mpr hge
  have hb1 : (writeToHandle ((w.buf ++ p).take (loc + w.options.LineSeparator.length)) fs).base
      = some (c ++ (w.buf ++ p).take (loc + w.options.LineSeparator.length)) := by
    simp [writeToHandle, hb]
  simp [hf, hs, hnlt, hsep, hloc, Env.allOk, fWrite, rotate_allOk _ _ _ hb1]

/-! ### Which generation files exist after rotations -/

theorem shiftLoop_profile (B : Nat) : ∀ (m : Nat) (fs : FS),
    (∀ j, ((fs.gens j).isSome = true) ↔ (1 ≤ j ∧ j ≤ min B m) ∨ (m + 2 ≤ j ∧ j ≤ B + 1)) →
    ∀ j, (((shiftLoop fs m).gens j).isSome = true) ↔ (2 ≤ j ∧ j ≤ B + 1) := by
  intro m
  induction m with
  | zero =>
    intro fs h j
    rw [show shiftLoop fs 0 = fs from rfl, h j]
    omega
  | succ m ih =>
    intro fs h j
    rw [shiftLoop]
    by_cases hmb : m + 1 ≤ B
    · have hsome : (fs.gens (m + 1)).isSome = true := by
        rw [h (m + 1)]
        omega
      rw [if_pos hsome]
      refine ih _ (fun i => ?_) j
      by_cases h1 : i = m + 1
      · subst h1
        rw [moveGen_gens, if_pos rfl]
        simp only [Option.isSome_none, Bool.false_eq_true, false_iff]
        omega
      · by_cases h2 : i = m + 2
        · subst h2
          rw [moveGen_gens, if_neg (by omega), if_pos rfl]
          exact ⟨fun _ => by omega, fun _ => hsome⟩
        · rw [moveGen_gens, if_neg h1, if_neg h2, h i]
          omega
    · have hnone : ¬ ((fs.gens (m + 1)).isSome = true) := by
        rw [h (m + 1)]
        omega
      rw [if_neg hnone]
      refine ih _ (fun i => ?_) j
      rw [h i]
      omega

theorem removeOldest_profile (R B : Nat) (fs : FS) (hR : 1 ≤ R) (hB : B ≤ R)
    (h : ∀ j, ((fs.gens j).isSome = true) ↔ 1 ≤ j ∧ j ≤ B) :
    ∀ j, (((removeOldest R fs).gens j).isSome = true) ↔ 1 ≤ j ∧ j ≤ min B (R - 1) := by
  intro j
  by_cases hg : (fs.gens R).isSome = true
  · have hBR : B = R := by
      have := (h R).mp hg
      omega
    rw [removeOldest, if_pos hg]
    simp only [updGens]
    by_cases hj : j = R
    · subst hj
      simp
      omega
    · rw [if_neg hj, h j]
      omega
  · have hBR : B ≤ R - 1 := by
      have := (h R).not.mp hg
      omega
    rw [removeOldest, if_neg hg, h j]
    omega

theorem rotateFS_profile (R B : Nat) (fs : FS) (c : Bytes) (hR : 1 ≤ R) (hB : B ≤ R)
    (hb : fs.base = some c)
    (h : ∀ j, ((fs.gens j).isSome = true) ↔ 1 ≤ j ∧ j ≤ B) :
    (rotateFS R fs).base = some [] ∧
      ∀ j, (((rotateFS R fs).gens j).isSome = true) ↔ 1 ≤ j ∧ j ≤ min (B + 1) R := by
  have h1 := removeOldest_profile R B fs hR hB h
  have h2 : ∀ j, (((shiftLoop (removeOldest R fs) (R - 1)).gens j).isSome = true) ↔
      2 ≤ j ∧ j ≤ min B (R - 1) + 1 := by
    refine shiftLoop_profile (min B (R - 1)) (R - 1) _ (fun j => ?_)
    rw [h1 j]
    omega
  have hb2 : (shiftLoop (removeOldest R fs) (R - 1)).base = some c := by
    rw [shiftLoop_base, removeOldest_base, hb]
  constructor
  · rw [rotateFS, renameBaseToGen1, hb2]
    rfl
  · intro j
    have hgen : (rotateFS R fs).gens j =
        updGens (shiftLoop (removeOldest R fs) (R - 1)).gens 1 (some c) j := by
      rw [rotateFS, renameBaseToGen1, hb2]
      rfl
    rw [hgen]
    simp only [updGens]
    by_cases hj : j = 1
    · subst hj
      simp
      omega
    · rw [if_neg hj, h2 j]
      omega

/-- Sequences of `Write` calls on one writer under the all-operations-
succeed environment, counting how many of them found the file size at or
above the threshold (`cross` steps); `small` steps are the ordinary
below-threshold writes that fill the base file in between. -/
inductive WSteps : Writer → FS → Nat → Writer → FS → Prop where
  | done (w : Writer) (fs : FS) : WSteps w fs 0 w fs
  | cross (w : Writer) (fs : FS) (p : Bytes) (k : Nat) (w2 : Writer) (fs2 : FS) :
      w.options.Size ≤ statSize fs →
      WSteps (Writer.write w fs Env.allOk p).w (Writer.write w fs Env.allOk p).fs k w2 fs2 →
      WSteps w fs (k + 1) w2 fs2
  | small (w : Writer) (fs : FS) (p : Bytes) (k : Nat) (w2 : Writer) (fs2 : FS) :
      statSize fs < w.options.Size →
      WSteps (Writer.write w fs Env.allOk p).w (Writer.write w fs Env.allOk p).fs k w2 fs2 →
      WSteps w fs k w2 fs2

theorem wsteps_profile {w fs T w2 fs2} (hsteps : WSteps w fs T w2 fs2) :
    ∀ {B : Nat}, w.f = HandleState.hopen → w.options.Size ≠ 0 →
    w.options.LineSeparator = [] → 1 ≤ w.options.Rotate → B ≤ w.options.Rotate →
    (∃ c, fs.base = some c) →
    (∀ j, ((fs.gens j).isSome = true) ↔ 1 ≤ j ∧ j ≤ B) →
    fs2.base.isSome = true ∧
      ∀ j, ((fs2.gens j).isSome = true) ↔ 1 ≤ j ∧ j ≤ min (B + T) w.options.Rotate := by
  induction hsteps with
  | done w fs =>
    intro B hf hs hsep hR hB hb h
    obtain ⟨c, hb⟩ := hb
    refine ⟨by rw [hb]; rfl, fun j => ?_⟩
    rw [h j]
    omega
  | cross w fs p k w2 fs2 hge hrec ih =>
    intro B hf hs hsep hR hB hb h
    obtain ⟨c, hb⟩ := hb
    rw [write_nosep_cross w fs p c hf hs hge hsep hb] at ih
    dsimp only at ih
    have hprof := rotateFS_profile w.options.Rotate B fs c hR hB hb h
    have hres := @ih (min (B + 1) w.options.Rotate) rfl hs hsep hR (by omega)
      ⟨[] ++ p, by simp [writeToHandle, hprof.1]⟩
      (fun j => by
        simpa [writeToHandle] using hprof.2 j)
    refine ⟨hres.1, fun j => ?_⟩
    rw [hres.2 j]
    omega
  | small w fs p k w2 fs2 hlt hrec ih =>
    intro B hf hs hsep hR hB hb h
    obtain ⟨c, hb⟩ := hb
    rw [write_below w fs p hf hs hlt] at ih
    dsimp only at ih
    exact ih hf hs hsep hR hB ⟨c ++ p, by simp [writeToHandle, hb]⟩
      (fun j => by simpa [writeToHandle] using h j)

theorem take_append_of_le {k : Nat} : ∀ {l : Bytes} (q : Bytes), k ≤ l.length →
    (l ++ q).take k = l.take k := by
  induction k with
  | zero => intro l q _; simp
  | succ m ih =>
    intro l q h
    cases l with
    | nil => simp at h
    | cons a as =>
      simp only [List.cons_append, List.take_succ_cons]
      rw [ih q (by simp only [List.length_cons] at h; omega)]

/-- Whatever the outcome of the OS calls, `rotate` never touches the
carry-over buffer or the options, and never nils out the handle (the
source closes the file but keeps the pointer). -/
theorem rotate_shape (w : Writer) (fs : FS) (env : RotEnv) :
    (Writer.rotate w fs env).2.1.buf = w.buf ∧
    (Writer.rotate w fs env).2.1.options = w.options ∧
    (w.f ≠ HandleState.hnil → (Writer.rotate w fs env).2.1.f ≠ HandleState.hnil) := by
  unfold Writer.rotate
  split
  next e w1 heq =>
    split at heq <;> try split at heq
    all_goals simp at heq
    all_goals try (obtain ⟨heqe, heqw⟩ := heq)
    all_goals try subst heqw
    all_goals simp_all
  next w1 heq =>
    have hw1 : w1.buf = w.buf ∧ w1.options = w.options ∧
        (w.f ≠ HandleState.hnil → w1.f ≠ HandleState.hnil) := by
      split at heq <;> try split at heq
      all_goals simp at heq
      all_goals try (obtain ⟨heqe, heqw⟩ := heq)
      all_goals simp_all
    split
    next e fs1 heq2 => exact hw1
    next fs1 heq2 =>
      split
      next e fs2 heq3 => exact hw1
      next fs2 heq3 =>
        split
        next heq4 => exact hw1
        next c heq4 =>
          by_cases h7 : env.renb_ok = true
          · rw [if_pos h7]
            dsimp only
            by_cases h8 : env.open_ok = true
            · rw [if_pos h8]
              exact ⟨hw1.1, hw1.2.1, fun _ => by simp⟩
            · rw [if_neg h8]
              exact hw1
          · rw [if_neg h7]
            exact hw1

/-! ### The claims -/

/-- C1: With a non-empty separator configured, the current file at or
above the threshold, and the separator first occurring at offset `loc`
of the carry-over buffer extended with the input, a successful `Write`
writes `buffer[0 .. loc+len(sep))` (separator included) through the
pre-rotation handle, then rotates, then writes
`buffer[loc+len(sep) ..]` through the new handle, resets the carry-over
buffer to empty, and returns the sum of the two write counts. -/
theorem c1_sep_found_write (w : Writer) (fs : FS) (p c : Bytes) (loc : Nat)
    (hf : w.f = HandleState.hopen) (hs : w.options.Size ≠ 0)
    (hge : w.options.Size ≤ statSize fs) (hsep : w.options.LineSeparator ≠ [])
    (hloc : bytesIndex (w.buf ++ p) w.options.LineSeparator = some loc)
    (hb : fs.base = some c) :
    Writer.write w fs Env.allOk p =
      ⟨(loc + w.options.LineSeparator.length) +
          ((w.buf ++ p).length - (loc + w.options.LineSeparator.length)),
        none,
        { w with f := HandleState.hopen, buf := [] },
        writeToHandle ((w.buf ++ p).drop (loc + w.options.LineSeparator.length))
          (rotateFS w.options.Rotate
            (writeToHandle ((w.buf ++ p).take (loc + w.options.LineSeparator.length)) fs))⟩ := by
  have hsl : w.options.LineSeparator.length ≠ 0 :=
    fun h0 => hsep (List.length_eq_zero.mp h0)
  have hk := bytesIndex_le hloc
  rw [write_sep_found w fs p c loc (by simp [hf]) hs hge hsl hloc hb]
  have h1 : (((w.buf ++ p).take (loc + w.options.LineSeparator.length)).length) =
      loc + w.options.LineSeparator.length := by
    rw [List.length_take]
    omega
  have h2 : (((w.buf ++ p).drop (loc + w.options.LineSeparator.length)).length) =
      (w.buf ++ p).length - (loc + w.options.LineSeparator.length) := by
    rw [List.length_drop]
  rw [h1, h2]

theorem c1_sep_found_write_witness :
    (Writer.write ⟨⟨"t.log", 2, 1, 420, [10]⟩, HandleState.hopen, [97, 98, 99]⟩
        ⟨some [7], fun _ => none⟩ Env.allOk [100, 10]).n = 5 ∧
    (Writer.write ⟨⟨"t.log", 2, 1, 420, [10]⟩, HandleState.hopen, [97, 98, 99]⟩
        ⟨some [7], fun _ => none⟩ Env.allOk [100, 10]).err = none ∧
    (Writer.write ⟨⟨"t.log", 2, 1, 420, [10]⟩, HandleState.hopen, [97, 98, 99]⟩
        ⟨some [7], fun _ => none⟩ Env.allOk [100, 10]).w.buf = [] ∧
    (Writer.write ⟨⟨"t.log", 2, 1, 420, [10]⟩, HandleState.hopen, [97, 98, 99]⟩
        ⟨some [7], fun _ => none⟩ Env.allOk [100, 10]).fs.gens 1 =
      some [7, 97, 98, 99, 100, 10] := by
  have h := c1_sep_found_write ⟨⟨"t.log", 2, 1, 420, [10]⟩, HandleState.hopen, [97, 98, 99]⟩
    ⟨some [7], fun _ => none⟩ [100, 10] [7] 4 rfl (by decide) (by decide) (by decide)
    (by decide) rfl
  rw [h]
  refine ⟨by decide, rfl, rfl, by decide⟩

/-- C2: A successful `rotate` (base file present, every OS call
succeeding) returns no error, leaves the writer holding a freshly
opened handle on the base path, and transforms the file system by, in
order: removing `<base>.R` when it exists, renaming `<base>.i` to
`<base>.i+1` for `i = R-1` down to `1` with missing sources skipped,
renaming the base file to `<base>.1`, and reopening the base path. -/
theorem c2_rotate_effect (w : Writer) (fs : FS) (c : Bytes) (hb : fs.base = some c) :
    Writer.rotate w fs RotEnv.allOk =
      (none, { w with f := HandleState.hopen },
        reopenBase (renameBaseToGen1
          (shiftLoop (removeOldest w.options.Rotate fs) (w.options.Rotate - 1)))) :=
  rotate_allOk w fs c hb

theorem c2_rotate_effect_witness :
    (Writer.rotate ⟨⟨"a.log", 2, 1000, 420, []⟩, HandleState.hopen, []⟩
        ⟨some [1], fun j => if j = 1 then some [2] else none⟩ RotEnv.allOk).1 = none ∧
    (Writer.rotate ⟨⟨"a.log", 2, 1000, 420, []⟩, HandleState.hopen, []⟩
        ⟨some [1], fun j => if j = 1 then some [2] else none⟩ RotEnv.allOk).2.2.base = some [] ∧
    (Writer.rotate ⟨⟨"a.log", 2, 1000, 420, []⟩, HandleState.hopen, []⟩
        ⟨some [1], fun j => if j = 1 then some [2] else none⟩ RotEnv.allOk).2.2.gens 1 =
      some [1] ∧
    (Writer.rotate ⟨⟨"a.log", 2, 1000, 420, []⟩, HandleState.hopen, []⟩
        ⟨some [1], fun j => if j = 1 then some [2] else none⟩ RotEnv.allOk).2.2.gens 2 =
      some [2] ∧
    (Writer.rotate ⟨⟨"a.log", 2, 1000, 420, []⟩, HandleState.hopen, []⟩
        ⟨some [1], fun j => if j = 1 then some [2] else none⟩ RotEnv.allOk).2.2.gens 3 = none := by
  have h := c2_rotate_effect ⟨⟨"a.log", 2, 1000, 420, []⟩, HandleState.hopen, []⟩
    ⟨some [1], fun j => if j = 1 then some [2] else none⟩ [1] rfl
  rw [h]
  refine ⟨rfl, by decide, by decide, by decide, by decide⟩

/-- Projects the writer out of a `NewWriter` result. -/
def okWriter (r : Except FErr (Writer × FS)) : Option Writer :=
  match r with
  | Except.ok (w, _) => some w
  | Except.error _ => none

/-- C3 counterexample: a `Write` of 2 bytes that completes a separator
after 3 bytes were buffered by earlier calls succeeds but returns 5,
the flushed buffer length, not the length 2 of this call's input. -/
theorem c3_count_counterexample :
    (Writer.write ⟨⟨"t.log", 2, 1, 420, [10]⟩, HandleState.hopen, [97, 98, 99]⟩
        ⟨some [7], fun _ => none⟩ Env.allOk [100, 10]).err = none ∧
    ¬ (Writer.write ⟨⟨"t.log", 2, 1, 420, [10]⟩, HandleState.hopen, [97, 98, 99]⟩
        ⟨some [7], fun _ => none⟩ Env.allOk [100, 10]).n =
      (List.length [100, 10]) := by
  decide

/-- C3 amended: a successful `Write` returns the length of this call's
input in the direct-write path and in the separator-not-found buffering
path; but when the separator is found, it returns the length of the
whole flushed carry-over buffer, i.e. the previously buffered bytes
plus this call's input. -/
theorem c3_count_amended (w : Writer) (fs : FS) (p c : Bytes)
    (hf : w.f = HandleState.hopen) (hs : w.options.Size ≠ 0) (hb : fs.base = some c) :
    (statSize fs < w.options.Size →
      (Writer.write w fs Env.allOk p).n = p.length) ∧
    (w.options.Size ≤ statSize fs → w.options.LineSeparator ≠ [] →
      bytesIndex (w.buf ++ p) w.options.LineSeparator = none →
      (Writer.write w fs Env.allOk p).n = p.length) ∧
    (∀ loc, w.options.Size ≤ statSize fs → w.options.LineSeparator ≠ [] →
      bytesIndex (w.buf ++ p) w.options.LineSeparator = some loc →
      (Writer.write w fs Env.allOk p).n = w.buf.length + p.length) := by
  refine ⟨fun hlt => ?_, fun hge hsep hnone => ?_, fun loc hge hsep hloc => ?_⟩
  · rw [write_below w fs p hf hs hlt]
  · rw [write_sep_notfound w fs Env.allOk p hf hs rfl hge
      (fun h0 => hsep (List.length_eq_zero.mp h0)) hnone]
  · rw [c1_sep_found_write w fs p c loc hf hs hge hsep hloc hb]
    have hk := bytesIndex_le hloc
    simp only [List.length_append] at hk ⊢
    omega

theorem c3_count_amended_witness :
    (Writer.write ⟨⟨"t.log", 2, 1, 420, [10]⟩, HandleState.hopen, [97, 98, 99]⟩
        ⟨some [7], fun _ => none⟩ Env.allOk [100, 10]).n = 5 ∧
    (Writer.write ⟨⟨"t.log", 2, 1, 420, [10]⟩, HandleState.hopen, [97, 98, 99]⟩
        ⟨some [7], fun _ => none⟩ Env.allOk [100]).n = 1 := by
  have h1 := (c3_count_amended ⟨⟨"t.log", 2, 1, 420, [10]⟩, HandleState.hopen, [97, 98, 99]⟩
    ⟨some [7], fun _ => none⟩ [100, 10] [7] rfl (by decide) rfl).2.2 4
    (by decide) (by decide) (by decide)
  have h2 := (c3_count_amended ⟨⟨"t.log", 2, 1, 420, [10]⟩, HandleState.hopen, [97, 98, 99]⟩
    ⟨some [7], fun _ => none⟩ [100] [7] rfl (by decide) rfl).2.1
    (by decide) (by decide) (by decide)
  rw [h1, h2]
  exact ⟨by decide, by decide⟩

/-- C4 counterexample: a writer constructed with size threshold 0 gets
the 10MiB default instead, and its `Write` does perform the stat check:
with a failing stat it returns the stat error rather than writing
directly. -/
theorem c4_size0_counterexample :
    (okWriter (NewWriter ⟨"t.log", 1, 0, 420, []⟩ ⟨some [7], fun _ => none⟩ true)).map
        (fun w => (w.options, w.f, w.buf)) =
      some (⟨"t.log", 1, 10485760, 420, []⟩, HandleState.hopen, []) ∧
    (Writer.write ⟨⟨"t.log", 1, 10485760, 420, []⟩, HandleState.hopen, []⟩
        ⟨some [7], fun _ => none⟩ ⟨false, true, true, true, RotEnv.allOk⟩ [5]).err =
      some FErr.statErr ∧
    (Writer.write ⟨⟨"t.log", 1, 10485760, 420, []⟩, HandleState.hopen, []⟩
        ⟨some [7], fun _ => none⟩ ⟨false, true, true, true, RotEnv.allOk⟩ [5]).n = 0 := by
  refine ⟨rfl, by decide, by decide⟩

/-- C4 amended: `NewWriter` replaces a zero size threshold with the
10MiB default, so every constructed writer has a non-zero threshold and
size-based rotation stays enabled; the direct-write branch of `Write`
for a stored size of 0 (no stat, no buffering, no rotation, result
independent of the stat outcome) exists but is unreachable through
construction. -/
theorem c4_size0_amended :
    (∀ options fs open_ok w fs1,
      NewWriter options fs open_ok = Except.ok (w, fs1) → w.options.Size ≠ 0) ∧
    (∀ (w : Writer) (fs : FS) (env : Env) (p : Bytes),
      w.f ≠ HandleState.hnil → w.options.Size = 0 →
      Writer.write w fs env p =
        ⟨(fWrite env.w_ok p fs).1, (fWrite env.w_ok p fs).2.1, w,
          (fWrite env.w_ok p fs).2.2⟩) := by
  constructor
  · intro options fs open_ok w fs1 h
    unfold NewWriter at h
    by_cases hp : options.FilePath = ""
    · simp [hp] at h
    · by_cases ho : open_ok = true
      · rw [if_neg hp, if_pos ho] at h
        simp only [Except.ok.injEq, Prod.mk.injEq] at h
        obtain ⟨hw, _⟩ := h
        subst hw
        dsimp only
        by_cases hz : options.Size = 0 <;> simp [hz, DefaultOptions]
      · rw [if_neg hp, if_neg ho] at h
        simp at h
  · intro w fs env p hf hs
    exact write_size0 w fs env p hf hs

theorem c4_size0_amended_witness :
    ((⟨⟨"t.log", 1, 10485760, 420, []⟩, HandleState.hopen, []⟩ : Writer).options.Size ≠ 0) ∧
    (Writer.write ⟨⟨"t.log", 1, 0, 420, []⟩, HandleState.hopen, []⟩
        ⟨some [7], fun _ => none⟩ Env.allOk [5, 6]).n = 2 := by
  constructor
  · exact c4_size0_amended.1 ⟨"t.log", 1, 0, 420, []⟩ ⟨some [7], fun _ => none⟩ true
      ⟨⟨"t.log", 1, 10485760, 420, []⟩, HandleState.hopen, []⟩ ⟨some [7], fun _ => none⟩ rfl
  · rw [c4_size0_amended.2 ⟨⟨"t.log", 1, 0, 420, []⟩, HandleState.hopen, []⟩
      ⟨some [7], fun _ => none⟩ Env.allOk [5, 6] (by decide) rfl]
    decide

/-- C5: the code contradicts its own documentation of `Options.Rotate`
("If Rotate count is 0, old versions are removed rather than rotated"):
`NewWriter` silently replaces rotate count 0 with the default 5, and
even a raw `rotate` with rotate count 0 keeps the old base file as
generation `<base>.1` instead of discarding it. -/
theorem c5_rotate0_behavior :
    (okWriter (NewWriter ⟨"our.log", 0, 1000, 420, []⟩ ⟨none, fun _ => none⟩ true)).map
        (fun w => w.options.Rotate) = some 5 ∧
    (Writer.rotate ⟨⟨"our.log", 0, 1000, 420, []⟩, HandleState.hopen, []⟩
        ⟨some [1], fun _ => none⟩ RotEnv.allOk).1 = none ∧
    (Writer.rotate ⟨⟨"our.log", 0, 1000, 420, []⟩, HandleState.hopen, []⟩
        ⟨some [1], fun _ => none⟩ RotEnv.allOk).2.2.gens 1 = some [1] := by
  refine ⟨rfl, by decide, by decide⟩

/-- C6: With rotate count `R ≥ 1` and no separator, starting from a
file system holding only the base file, after a sequence of successful
`Write` calls in which the threshold was found crossed `T > R` times,
exactly the base file and the generations `<base>.1 .. <base>.R` exist:
`R + 1` files in total, and no generation with index greater than `R`
persists. -/
theorem c6_generation_retention (w w2 : Writer) (fs fs2 : FS) (R T : Nat)
    (hf : w.f = HandleState.hopen) (hR : w.options.Rotate = R) (h1R : 1 ≤ R)
    (hs : w.options.Size ≠ 0) (hsep : w.options.LineSeparator = [])
    (hb : ∃ c, fs.base = some c) (hg : ∀ j, fs.gens j = none)
    (hT : R < T) (hsteps : WSteps w fs T w2 fs2) :
    fs2.base.isSome = true ∧
      ∀ j, ((fs2.gens j).isSome = true) ↔ 1 ≤ j ∧ j ≤ R := by
  have h := @wsteps_profile w fs T w2 fs2 hsteps 0 hf hs hsep (by omega) (by omega) hb
    (fun j => by simp [hg j]; omega)
  refine ⟨h.1, fun j => ?_⟩
  rw [h.2 j]
  omega

theorem c6_generation_retention_witness :
    ((Writer.write
        (Writer.write ⟨⟨"t.log", 1, 1, 420, []⟩, HandleState.hopen, []⟩
          ⟨some [7], fun _ => none⟩ Env.allOk [42]).w
        (Writer.write ⟨⟨"t.log", 1, 1, 420, []⟩, HandleState.hopen, []⟩
          ⟨some [7], fun _ => none⟩ Env.allOk [42]).fs Env.allOk [43]).fs.base.isSome = true) ∧
    (((Writer.write
        (Writer.write ⟨⟨"t.log", 1, 1, 420, []⟩, HandleState.hopen, []⟩
          ⟨some [7], fun _ => none⟩ Env.allOk [42]).w
        (Writer.write ⟨⟨"t.log", 1, 1, 420, []⟩, HandleState.hopen, []⟩
          ⟨some [7], fun _ => none⟩ Env.allOk [42]).fs Env.allOk [43]).fs.gens 1).isSome
      = true) ∧
    ((Writer.write
        (Writer.write ⟨⟨"t.log", 1, 1, 420, []⟩, HandleState.hopen, []⟩
          ⟨some [7], fun _ => none⟩ Env.allOk [42]).w
        (Writer.write ⟨⟨"t.log", 1, 1, 420, []⟩, HandleState.hopen, []⟩
          ⟨some [7], fun _ => none⟩ Env.allOk [42]).fs Env.allOk [43]).fs.gens 2 = none) := by
  have hd : WSteps ⟨⟨"t.log", 1, 1, 420, []⟩, HandleState.hopen, []⟩
      ⟨some [7], fun _ => none⟩ 2
      (Writer.write
        (Writer.write ⟨⟨"t.log", 1, 1, 420, []⟩, HandleState.hopen, []⟩
          ⟨some [7], fun _ => none⟩ Env.allOk [42]).w
        (Writer.write ⟨⟨"t.log", 1, 1, 420, []⟩, HandleState.hopen, []⟩
          ⟨some [7], fun _ => none⟩ Env.allOk [42]).fs Env.allOk [43]).w
      (Writer.write
        (Writer.write ⟨⟨"t.log", 1, 1, 420, []⟩, HandleState.hopen, []⟩
          ⟨some [7], fun _ => none⟩ Env.allOk [42]).w
        (Writer.write ⟨⟨"t.log", 1, 1, 420, []⟩, HandleState.hopen, []⟩
          ⟨some [7], fun _ => none⟩ Env.allOk [42]).fs Env.allOk [43]).fs :=
    WSteps.cross _ _ [42] 1 _ _ (by decide)
      (WSteps.cross _ _ [43] 0 _ _ (by decide) (WSteps.done _ _))
  have h := c6_generation_retention _ _ _ _ 1 2 rfl rfl (by omega) (by decide) rfl
    ⟨[7], rfl⟩ (fun j => rfl) (by omega) hd
  refine ⟨h.1, (h.2 1).mpr (by omega), ?_⟩
  exact Option.not_isSome_iff_eq_none.mp (fun hx => by
    have := (h.2 2).mp hx
    omega)

/-- C7: When the configured separator is empty, a `Write` at or above
the threshold rotates immediately (no boundary search, no buffering),
writes the full input to the new handle and returns that single write's
count; and `NewWriter` never substitutes a default separator. -/
theorem c7_nosep_immediate (w : Writer) (fs : FS) (p c : Bytes)
    (hf : w.f = HandleState.hopen) (hs : w.options.Size ≠ 0)
    (hge : w.options.Size ≤ statSize fs) (hsep : w.options.LineSeparator = [])
    (hb : fs.base = some c) :
    Writer.write w fs Env.allOk p =
      ⟨p.length, none, { w with f := HandleState.hopen },
        writeToHandle p (rotateFS w.options.Rotate fs)⟩ ∧
    (∀ options fs2 open_ok w2 fs3,
      NewWriter options fs2 open_ok = Except.ok (w2, fs3) →
      w2.options.LineSeparator = options.LineSeparator) := by
  refine ⟨write_nosep_cross w fs p c hf hs hge hsep hb, ?_⟩
  intro options fs2 open_ok w2 fs3 h
  unfold NewWriter at h
  by_cases hp : options.FilePath = ""
  · simp [hp] at h
  · by_cases ho : open_ok = true
    · rw [if_neg hp, if_pos ho] at h
      simp only [Except.ok.injEq, Prod.mk.injEq] at h
      obtain ⟨hw, _⟩ := h
      subst hw
      rfl
    · rw [if_neg hp, if_neg ho] at h
      simp at h

theorem c7_nosep_immediate_witness :
    (Writer.write ⟨⟨"t.log", 2, 1, 420, []⟩, HandleState.hopen, []⟩
        ⟨some [7], fun _ => none⟩ Env.allOk [5, 6]).n = 2 ∧
    (Writer.write ⟨⟨"t.log", 2, 1, 420, []⟩, HandleState.hopen, []⟩
        ⟨some [7], fun _ => none⟩ Env.allOk [5, 6]).fs.base = some [5, 6] ∧
    (Writer.write ⟨⟨"t.log", 2, 1, 420, []⟩, HandleState.hopen, []⟩
        ⟨some [7], fun _ => none⟩ Env.allOk [5, 6]).fs.gens 1 = some [7] ∧
    ((okWriter (NewWriter ⟨"t.log", 1, 10, 420, [13]⟩ ⟨none, fun _ => none⟩ true)).map
        (fun w => w.options.LineSeparator) = some [13]) := by
  have h := c7_nosep_immediate ⟨⟨"t.log", 2, 1, 420, []⟩, HandleState.hopen, []⟩
    ⟨some [7], fun _ => none⟩ [5, 6] [7] rfl (by decide) (by decide) rfl rfl
  rw [h.1]
  refine ⟨rfl, by decide, by decide, ?_⟩
  have h2 := h.2 ⟨"t.log", 1, 10, 420, [13]⟩ ⟨none, fun _ => none⟩ true
    ⟨⟨"t.log", 1, 10, 420, [13]⟩, HandleState.hopen, []⟩ ⟨some [], fun _ => none⟩ rfl
  rw [show (okWriter (NewWriter ⟨"t.log", 1, 10, 420, [13]⟩ ⟨none, fun _ => none⟩ true)).map
      (fun w => w.options.LineSeparator) =
      some (⟨⟨"t.log", 1, 10, 420, [13]⟩, HandleState.hopen, ([] : Bytes)⟩ :
        Writer).options.LineSeparator from rfl, h2]

/-- C8: After `Close` has released the handle, `Close` left the file
system untouched and every subsequent `Write` fails with the
writer-closed error, returns count 0, and modifies neither the writer
state nor the file system. -/
theorem c8_write_after_close (w : Writer) (fs fs2 : FS) (env : Env) (p : Bytes) (ok : Bool) :
    ((Writer.close w fs ok).2.1).f = HandleState.hnil ∧
    (Writer.close w fs ok).2.2 = fs ∧
    Writer.write (Writer.close w fs ok).2.1 fs2 env p =
      ⟨0, some FErr.closedErr, (Writer.close w fs ok).2.1, fs2⟩ := by
  have hf : ((Writer.close w fs ok).2.1).f = HandleState.hnil := by
    unfold Writer.close
    by_cases h : w.f = HandleState.hnil <;> simp [h]
  refine ⟨hf, ?_, write_closed _ _ _ _ hf⟩
  unfold Writer.close
  by_cases h : w.f = HandleState.hnil <;> simp [h]

/-- C9: `Close` never flushes the carry-over buffer: after a `Write`
that buffered its input awaiting a separator (reporting it accepted),
`Close` releases the handle and returns without writing anything to the
file system, so the buffered bytes are lost. -/
theorem c9_close_discards_buffer (w : Writer) (fs fs2 : FS) (env : Env) (p : Bytes) (ok : Bool)
    (hf : w.f = HandleState.hopen) (hs : w.options.Size ≠ 0) (hstat : env.stat_ok = true)
    (hge : w.options.Size ≤ statSize fs) (hsep : w.options.LineSeparator.length ≠ 0)
    (hnone : bytesIndex (w.buf ++ p) w.options.LineSeparator = none) :
    (Writer.write w fs env p).n = p.length ∧
    (Writer.write w fs env p).err = none ∧
    (Writer.write w fs env p).fs = fs ∧
    (Writer.write w fs env p).w.buf = w.buf ++ p ∧
    Writer.close (Writer.write w fs env p).w fs2 ok =
      ((if ok then none else some FErr.closeErr),
        { (Writer.write w fs env p).w with f := HandleState.hnil }, fs2) := by
  rw [write_sep_notfound w fs env p hf hs hstat hge hsep hnone]
  refine ⟨rfl, rfl, rfl, rfl, ?_⟩
  unfold Writer.close
  rw [if_pos (by simp [hf])]

theorem c9_close_discards_buffer_witness :
    (Writer.write ⟨⟨"t.log", 2, 1, 420, [10]⟩, HandleState.hopen, [97]⟩
        ⟨some [7], fun _ => none⟩ Env.allOk [98]).n = 1 ∧
    (Writer.write ⟨⟨"t.log", 2, 1, 420, [10]⟩, HandleState.hopen, [97]⟩
        ⟨some [7], fun _ => none⟩ Env.allOk [98]).w.buf = [97, 98] ∧
    (Writer.close (Writer.write ⟨⟨"t.log", 2, 1, 420, [10]⟩, HandleState.hopen, [97]⟩
        ⟨some [7], fun _ => none⟩ Env.allOk [98]).w ⟨some [7], fun _ => none⟩ true).2.1.f =
      HandleState.hnil ∧
    (Writer.close (Writer.write ⟨⟨"t.log", 2, 1, 420, [10]⟩, HandleState.hopen, [97]⟩
        ⟨some [7], fun _ => none⟩ Env.allOk [98]).w ⟨some [7], fun _ => none⟩ true).2.2 =
      (⟨some [7], fun _ => none⟩ : FS) := by
  have h := c9_close_discards_buffer ⟨⟨"t.log", 2, 1, 420, [10]⟩, HandleState.hopen, [97]⟩
    ⟨some [7], fun _ => none⟩ ⟨some [7], fun _ => none⟩ Env.allOk [98] true rfl (by decide)
    rfl (by decide) (by decide) (by decide)
  refine ⟨h.1, by rw [h.2.2.2.1]; rfl, ?_, ?_⟩
  · rw [h.2.2.2.2]
  · rw [h.2.2.2.2]

/-- Any later `Write` that starts from a writer whose carry-over buffer
still holds `w.buf ++ p` (with the separator first at `loc`) finds the
separator at the same offset and flushes the same initial chunk
`(w.buf ++ p).take (loc + len(sep))` to disk again. -/
theorem write_refound (RW w : Writer) (fs2 : FS) (p p2 c2 : Bytes) (loc : Nat)
    (hRWbuf : RW.buf = w.buf ++ p) (hRWopt : RW.options = w.options)
    (hRWf : RW.f ≠ HandleState.hnil)
    (hs : w.options.Size ≠ 0) (hsep : w.options.LineSeparator ≠ [])
    (hloc : bytesIndex (w.buf ++ p) w.options.LineSeparator = some loc)
    (hb2 : fs2.base = some c2) (hge2 : w.options.Size ≤ statSize fs2) :
    (RW.buf ++ p2).take (loc + w.options.LineSeparator.length) =
      (w.buf ++ p).take (loc + w.options.LineSeparator.length) ∧
    Writer.write RW fs2 Env.allOk p2 =
      ⟨(loc + w.options.LineSeparator.length) +
          ((RW.buf ++ p2).length - (loc + w.options.LineSeparator.length)),
        none, { RW with f := HandleState.hopen, buf := [] },
        writeToHandle ((RW.buf ++ p2).drop (loc + w.options.LineSeparator.length))
          (rotateFS w.options.Rotate
            (writeToHandle ((RW.buf ++ p2).take (loc + w.options.LineSeparator.length))
              fs2))⟩ := by
  have hk := bytesIndex_le hloc
  have hloc2 : bytesIndex (RW.buf ++ p2) RW.options.LineSeparator = some loc := by
    rw [hRWbuf, hRWopt]
    exact bytesIndex_append p2 hloc
  have h := write_sep_found RW fs2 p2 c2 loc hRWf (by rw [hRWopt]; exact hs)
    (by rw [hRWopt]; exact hge2)
    (by rw [hRWopt]; exact fun h0 => hsep (List.length_eq_zero.mp h0)) hloc2 hb2
  have hk2 : loc + w.options.LineSeparator.length ≤ (RW.buf ++ p2).length := by
    rw [List.length_append] at hk
    rw [hRWbuf, List.length_append, List.length_append]
    omega
  constructor
  · rw [hRWbuf]
    exact take_append_of_le p2 hk
  · rw [h, hRWopt]
    have h1 : ((RW.buf ++ p2).take (loc + w.options.LineSeparator.length)).length =
        loc + w.options.LineSeparator.length := by
      rw [List.length_take]
      omega
    have h2 : ((RW.buf ++ p2).drop (loc + w.options.LineSeparator.length)).length =
        (RW.buf ++ p2).length - (loc + w.options.LineSeparator.length) :=
      List.length_drop _ _
    rw [h1, h2]

/-- C10: In the separator-found branch of `Write`, every error exit
after the buffer append (failed pre-rotation write, failed rotate,
failed post-rotation write) returns count 0 and leaves the carry-over
buffer un-reset, still holding the previously buffered bytes plus this
call's input, with the handle non-nil and the options unchanged; so any
later `Write` that reaches the separator-found branch finds the
separator at the same offset and flushes the already written chunk
`buffer.take (loc + len(sep))` to disk a second time. -/
theorem c10_error_exit_buffer (w : Writer) (fs : FS) (env : Env) (p c : Bytes) (loc : Nat)
    (hf : w.f = HandleState.hopen) (hs : w.options.Size ≠ 0) (hstat : env.stat_ok = true)
    (hge : w.options.Size ≤ statSize fs) (hsep : w.options.LineSeparator ≠ [])
    (hloc : bytesIndex (w.buf ++ p) w.options.LineSeparator = some loc)
    (hb : fs.base = some c)
    (herr : ((Writer.write w fs env p).err).isSome = true) :
    (Writer.write w fs env p).n = 0 ∧
    (Writer.write w fs env p).w.buf = w.buf ++ p ∧
    (Writer.write w fs env p).w.f ≠ HandleState.hnil ∧
    (Writer.write w fs env p).w.options = w.options ∧
    (∀ (fsB : FS) (p2 c2 : Bytes), fsB.base = some c2 →
      w.options.Size ≤ statSize fsB →
      ((Writer.write w fs env p).w.buf ++ p2).take (loc + w.options.LineSeparator.length) =
        (w.buf ++ p).take (loc + w.options.LineSeparator.length) ∧
      Writer.write (Writer.write w fs env p).w fsB Env.allOk p2 =
        ⟨(loc + w.options.LineSeparator.length) +
            (((Writer.write w fs env p).w.buf ++ p2).length -
              (loc + w.options.LineSeparator.length)),
          none,
          { (Writer.write w fs env p).w with f := HandleState.hopen, buf := [] },
          writeToHandle (((Writer.write w fs env p).w.buf ++ p2).drop
              (loc + w.options.LineSeparator.length))
            (rotateFS w.options.Rotate
              (writeToHandle (((Writer.write w fs env p).w.buf ++ p2).take
                  (loc + w.options.LineSeparator.length)) fsB))⟩) := by
  have hne : ¬ w.f = HandleState.hnil := by simp [hf]
  have hsl : ¬ w.options.LineSeparator.length = 0 :=
    fun h0 => hsep (List.length_eq_zero.mp h0)
  have hnlt : ¬ statSize fs < w.options.Size := not_lt.mpr hge
  have hstat2 : ¬ env.stat_ok = false := by simp [hstat]
  have hwrite : Writer.write w fs env p =
      (match fWrite env.w0_ok ((w.buf ++ p).take (loc + w.options.LineSeparator.length)) fs with
       | (_, some e, fs1) => ⟨0, some e, { w with buf := w.buf ++ p }, fs1⟩
       | (n0, none, fs1) =>
         match Writer.rotate { w with buf := w.buf ++ p } fs1 env.rot with
         | (some e, w2, fs2) => ⟨0, some e, w2, fs2⟩
         | (none, w2, fs2) =>
           match fWrite env.w1_ok ((w.buf ++ p).drop (loc + w.options.LineSeparator.length))
               fs2 with
           | (_, some e, fs3) => ⟨0, some e, w2, fs3⟩
           | (n1, none, fs3) => ⟨n0 + n1, none, { w2 with buf := [] }, fs3⟩) := by
    unfold Writer.write
    rw [if_neg hne, if_neg hs, if_neg hstat2, if_neg hnlt, if_neg hsl]
    dsimp only
    rw [hloc]
  rw [hwrite] at herr ⊢
  rcases hfw0 : fWrite env.w0_ok ((w.buf ++ p).take (loc + w.options.LineSeparator.length)) fs
    with ⟨n0, oe0, fs1⟩
  cases oe0 with
  | some e =>
    refine ⟨rfl, rfl, by simp [hf], rfl, ?_⟩
    intro fsB p2 c2 hb2 hge2
    exact write_refound { w with buf := w.buf ++ p } w fsB p p2 c2 loc rfl rfl
      (by simp [hf]) hs hsep hloc hb2 hge2
  | none =>
    by_cases hw0 : env.w0_ok = true
    · dsimp only at herr ⊢
      rcases hrot : Writer.rotate { w with buf := w.buf ++ p } fs1 env.rot with ⟨oer, w2, fs2⟩
      have hshape := rotate_shape { w with buf := w.buf ++ p } fs1 env.rot
      rw [hrot] at hshape
      dsimp only at hshape
      cases oer with
      | some e =>
        refine ⟨rfl, hshape.1, hshape.2.2 (by simp [hf]), hshape.2.1, ?_⟩
        intro fsB p2 c2 hb2 hge2
        exact write_refound w2 w fsB p p2 c2 loc hshape.1 hshape.2.1
          (hshape.2.2 (by simp [hf])) hs hsep hloc hb2 hge2
      | none =>
        dsimp only at herr ⊢
        rcases hfw1 : fWrite env.w1_ok
            ((w.buf ++ p).drop (loc + w.options.LineSeparator.length)) fs2
          with ⟨n1, oe1, fs3⟩
        cases oe1 with
        | some e =>
          refine ⟨rfl, hshape.1, hshape.2.2 (by simp [hf]), hshape.2.1, ?_⟩
          intro fsB p2 c2 hb2 hge2
          exact write_refound w2 w fsB p p2 c2 loc hshape.1 hshape.2.1
            (hshape.2.2 (by simp [hf])) hs hsep hloc hb2 hge2
        | none =>
          rw [hfw0] at herr
          dsimp only at herr
          rw [hrot] at herr
          dsimp only at herr
          rw [hfw1] at herr
          simp at herr
    · unfold fWrite at hfw0
      rw [if_neg hw0] at hfw0
      simp at hfw0

theorem c10_error_exit_buffer_witness :
    (Writer.write ⟨⟨"t.log", 2, 1, 420, [10]⟩, HandleState.hopen, [97, 98, 99]⟩
        ⟨some [7], fun _ => none⟩ ⟨true, true, false, true, RotEnv.allOk⟩ [100, 10]).n = 0 ∧
    (Writer.write ⟨⟨"t.log", 2, 1, 420, [10]⟩, HandleState.hopen, [97, 98, 99]⟩
        ⟨some [7], fun _ => none⟩ ⟨true, true, false, true, RotEnv.allOk⟩ [100, 10]).w.buf =
      [97, 98, 99, 100, 10] ∧
    (Writer.write
        (Writer.write ⟨⟨"t.log", 2, 1, 420, [10]⟩, HandleState.hopen, [97, 98, 99]⟩
          ⟨some [7], fun _ => none⟩ ⟨true, true, false, true, RotEnv.allOk⟩ [100, 10]).w
        ⟨some [9], fun _ => none⟩ Env.allOk []).n = 5 := by
  have h := c10_error_exit_buffer ⟨⟨"t.log", 2, 1, 420, [10]⟩, HandleState.hopen, [97, 98, 99]⟩
    ⟨some [7], fun _ => none⟩ ⟨true, true, false, true, RotEnv.allOk⟩ [100, 10] [7] 4
    rfl (by decide) rfl (by decide) (by decide) (by decide) rfl (by decide)
  refine ⟨h.1, by rw [h.2.1]; rfl, ?_⟩
  have h5 := (h.2.2.2.2 ⟨some [9], fun _ => none⟩ [] [9] rfl (by decide)).2
  rw [h5]
  decide

end Filerotate
